import Mathlib

/-!
Verification of the heuristic table-structure inference engine and the
dataset review/identification flow of the Infograph2Data backend.

The Python sources are shallowly embedded: text is a list of characters,
Python dicts (rows) are association lists with in-place-update insertion,
datetimes are integers, floats (confidence scores) are rationals, and the
HTTP / filesystem collaborators are passed in as explicit parameters.
-/

namespace Infograph

/-- Text is modelled as a list of characters (Python `str`). -/
abbrev Str := List Char

/-- Whitespace as recognised by Python `str.strip` and the regex class
used in `extractor.py` (ASCII subset, which is all that can occur here). -/
def pyIsSpace (c : Char) : Bool :=
  c = ' ' || c = '\t' || c = '\n' || c = '\r' || c = '\x0b' || c = '\x0c'

/-- Python `str.strip()`: drop whitespace from both ends. -/
def trim (s : Str) : Str :=
  ((s.dropWhile pyIsSpace).reverse.dropWhile pyIsSpace).reverse

/-- Python `str.split(sep)` for a one-character separator. -/
def splitOnChar (sep : Char) : Str → List Str
  | [] => [[]]
  | c :: rest =>
    match splitOnChar sep rest with
    | [] => [[c]]
    | t :: ts => if c = sep then [] :: t :: ts else (c :: t) :: ts

/-- `extractor.py` line 69: non-empty stripped lines of the input text. -/
def linesOf (text : Str) : List Str :=
  ((splitOnChar '\n' text).map trim).filter (fun l => !l.isEmpty)

/-- A scalar cell value (Python str / int / float / bool / None). -/
inductive Value where
  | vStr : Str → Value
  | vInt : Int → Value
  | vNum : ℚ → Value
  | vBool : Bool → Value
  | vNull : Value
deriving DecidableEq, Repr

instance : Inhabited Value := ⟨Value.vNull⟩

/-- A row is a Python dict: an association list with unique keys kept in
insertion order. -/
abbrev Row := List (Str × Value)

/-- Python `d[k] = v`: update the binding in place if the key exists,
otherwise append it. -/
def dictInsert (k : Str) (v : Value) : Row → Row
  | [] => [(k, v)]
  | (k', v') :: rest =>
    if k' = k then (k, v) :: rest else (k', v') :: dictInsert k v rest

/-- Python `d.get(k)`. -/
def dictGet (k : Str) (r : Row) : Option Value :=
  match r with
  | [] => none
  | (k', v) :: rest => if k' = k then some v else dictGet k rest

/-- Keys of a row, in order. -/
def rowKeys (r : Row) : List Str := r.map Prod.fst

/-- Sequentially insert a list of bindings into a row (a Python dict
literal with `**` spreads, or a `for` loop of assignments). -/
def insertCells (cells : List (Str × Value)) (init : Row) : Row :=
  cells.foldl (fun acc kv => dictInsert kv.1 kv.2 acc) init

/-- Python `min` on a list of naturals (only used on non-empty lists). -/
def listMin : List Nat → Nat
  | [] => 0
  | c :: cs => cs.foldl Nat.min c

/-- Python `max` on a list of naturals (only used on non-empty lists). -/
def listMax : List Nat → Nat
  | [] => 0
  | c :: cs => cs.foldl Nat.max c

def rowIdKey : Str := "row_id".data

/-- Render a natural number as decimal text. -/
def natToStr (n : Nat) : Str := Nat.toDigits 10 n

/-- The synthetic header name `Column_{i}` (1-indexed argument). -/
def colName (i : Nat) : Str := "Column_".data ++ natToStr i

/-- `re.split(r"\s{2,}", line)`: cut the line at every maximal run of two
or more whitespace characters.  `tok` is the current token and `ws` the
pending run of whitespace, both reversed. -/
def splitMSGo (tok ws : Str) : Str → List Str
  | [] => if 2 ≤ ws.length then [tok.reverse, []] else [(ws ++ tok).reverse]
  | c :: rest =>
    if pyIsSpace c then splitMSGo tok (c :: ws) rest
    else if 2 ≤ ws.length then tok.reverse :: splitMSGo [c] [] rest
    else splitMSGo (c :: (ws ++ tok)) [] rest

def splitMS (s : Str) : List Str := splitMSGo [] [] s

/-- Value of the regex `\s*(.+)$` remainder after the colon: greedily
drop whitespace, but give one character back if nothing would remain. -/
def kvValue (rest : Str) : Str :=
  let v := rest.dropWhile pyIsSpace
  if v.isEmpty then rest.drop (rest.length - 1) else v

/-- `re.match(r"^(.+?):\s*(.+)$", line)`: the lazy group stops at the
first colon that has at least one character before it and at least one
character after it. -/
def kvGo (lab : Str) : Str → Option (Str × Str)
  | [] => none
  | c :: rest =>
    if c = ':' && !lab.isEmpty && !rest.isEmpty then
      some (lab.reverse, kvValue rest)
    else kvGo (c :: lab) rest

def kvMatch (line : Str) : Option (Str × Str) := kvGo [] line

/-- `extractor.py` lines 114-118: the stripped (label, value) pairs of the
lines the key-value regex matches. -/
def kvPairs (lines : List Str) : List (Str × Str) :=
  lines.filterMap (fun l => (kvMatch l).map (fun p => (trim p.1, trim p.2)))

/-- The cell bindings `(columns[j], val j)` produced by
`for j, col in enumerate(columns)`. -/
def mkCells (val : Nat → Value) : Nat → List Str → List (Str × Value)
  | _, [] => []
  | j, c :: cs => (c, val j) :: mkCells val (j + 1) cs

/-- Cell value in `_parse_delimited`: `parts[j] if j < len(parts) else ""`. -/
def dValue (parts : List Str) (j : Nat) : Value :=
  .vStr (if j < parts.length then parts.getD j [] else [])

/-- Cell value in the multi-space branch:
`parts[j].strip() if j < len(parts) else ""`. -/
def msValue (parts : List Str) (j : Nat) : Value :=
  .vStr (if j < parts.length then trim (parts.getD j []) else [])

/-- One output row of `_parse_delimited`. -/
def mkRowD (i : Nat) (cols parts : List Str) : Row :=
  insertCells (mkCells (dValue parts) 0 cols) [(rowIdKey, .vInt i)]

/-- One output row of the multi-space branch of `parse_table_from_text`. -/
def mkRowMS (i : Nat) (cols parts : List Str) : Row :=
  insertCells (mkCells (msValue parts) 0 cols) [(rowIdKey, .vInt i)]

/-- `extractor.py` line 135: split every line on the delimiter and strip
each cell. -/
def delimSplit (delim : Char) (lines : List Str) : List (List Str) :=
  lines.map (fun l => (splitOnChar delim l).map trim)

/-- `extractor.py` lines 138-139: the first split line, with empty header
cells replaced by synthetic `Column_{i+1}` names. -/
def delimColumns (delim : Char) (lines : List Str) : List Str :=
  ((delimSplit delim lines).headD []).enum.map
    (fun ic => if ic.2.isEmpty then colName (ic.1 + 1) else ic.2)

/-- `_parse_delimited` (`extractor.py` lines 133-151). -/
def parseDelimited (lines : List Str) (delim : Char) : List Str × List Row :=
  let cols := delimColumns delim lines
  (cols, ((delimSplit delim lines).tail).enum.map
    (fun ip => mkRowD (ip.1 + 1) cols ip.2))

/-- Guard of the tab scheme (`extractor.py` lines 75-76). -/
def tabGuard (lines : List Str) : Bool :=
  let cs := lines.map (fun l => l.count '\t')
  !cs.isEmpty && decide (0 < listMin cs) && decide (listMax cs = listMin cs)

/-- Guard of the pipe scheme (`extractor.py` lines 80-81). -/
def pipeGuard (lines : List Str) : Bool :=
  let cs := lines.map (fun l => l.count '|')
  !cs.isEmpty && decide (1 < listMin cs)

/-- The multi-space tokenisation of every line (`extractor.py` line 86). -/
def msTokss (lines : List Str) : List (List Str) := lines.map splitMS

/-- Guard of the multi-space scheme (`extractor.py` lines 87-89). -/
def msGuard (lines : List Str) : Bool :=
  let cc := (msTokss lines).map List.length
  !cc.isEmpty && decide (1 < listMin cc) &&
    decide (listMax cc - listMin cc ≤ 1)

/-- Header heuristic (`extractor.py` line 96):
`all(not part[0].isdigit() for part in first_parts if part)`. -/
def msHeaderOK (parts : List Str) : Bool :=
  parts.all (fun p => match p with | [] => true | c :: _ => !c.isDigit)

/-- Whether the first line is promoted to the header row. -/
def msPromote (lines : List Str) : Bool :=
  msHeaderOK ((msTokss lines).headD [])

def msMaxCols (lines : List Str) : Nat :=
  listMax ((msTokss lines).map List.length)

/-- Columns of the multi-space scheme: first line if it looks like a
header, else synthetic names (`extractor.py` lines 91-98). -/
def msColumns (lines : List Str) : List Str :=
  if msPromote lines then (msTokss lines).headD []
  else (List.range (msMaxCols lines)).map (fun i => colName (i + 1))

/-- Data lines of the multi-space scheme: tail if the first line was
promoted, else every line. -/
def msData (lines : List Str) : List (List Str) :=
  if msPromote lines then (msTokss lines).tail else msTokss lines

/-- Multi-space branch of `parse_table_from_text`
(`extractor.py` lines 85-110). -/
def msParse (lines : List Str) : List Str × List Row :=
  (msColumns lines, (msData lines).enum.map
    (fun ip => mkRowMS (ip.1 + 1) (msColumns lines) ip.2))

/-- Guard of the key-value scheme (`extractor.py` line 120). -/
def kvGuard (lines : List Str) : Bool := decide (2 ≤ (kvPairs lines).length)

def keyKey : Str := "Key".data
def valueKey : Str := "Value".data
def textKey : Str := "Text".data

/-- Key-value branch (`extractor.py` lines 120-125). -/
def kvParse (lines : List Str) : List Str × List Row :=
  ([keyKey, valueKey],
   (kvPairs lines).enum.map (fun ip =>
     [(rowIdKey, Value.vInt (ip.1 + 1)),
      (keyKey, Value.vStr ip.2.1),
      (valueKey, Value.vStr ip.2.2)]))

/-- Fallback branch (`extractor.py` lines 127-130). -/
def fallbackParse (lines : List Str) : List Str × List Row :=
  ([textKey],
   lines.enum.map (fun il =>
     [(rowIdKey, Value.vInt (il.1 + 1)), (textKey, Value.vStr il.2)]))

/-- `parse_table_from_text` (`extractor.py` lines 58-130). -/
def parse_table_from_text (text : Str) : List Str × List Row :=
  let lines := linesOf text
  if lines.isEmpty then ([], [])
  else if tabGuard lines then parseDelimited lines '\t'
  else if pipeGuard lines then parseDelimited lines '|'
  else if msGuard lines then msParse lines
  else if kvGuard lines then kvParse lines
  else fallbackParse lines

/-- The delimiter scheme the parser commits to, mirroring the guard
cascade of `parse_table_from_text` exactly. -/
inductive Scheme where
  | empty | tab | pipe | mspace | kv | fallback
deriving DecidableEq, Repr

def detectScheme (text : Str) : Scheme :=
  let lines := linesOf text
  if lines.isEmpty then .empty
  else if tabGuard lines then .tab
  else if pipeGuard lines then .pipe
  else if msGuard lines then .mspace
  else if kvGuard lines then .kv
  else .fallback

/-- Wall-clock instants, linearly ordered (Python `datetime`). -/
abbrev Time := Int

/-- `schemas/extraction.py`: the extraction strategies. -/
inductive ExtractionStrategy where
  | auto | pdf_text | ocr | vision_llm
deriving DecidableEq, Repr

/-- `schemas/extraction.py`: job status values. -/
inductive JobStatus where
  | pending | running | completed | failed | needs_ocr | needs_vision
deriving DecidableEq, Repr

/-- The `changes` dict built by `update_dataset` (`review.py` lines
46-64): a key is present exactly when the corresponding branch ran. -/
structure Changes where
  columns_added : Option (List Str) := none
  columns_removed : Option (List Str) := none
  rows_added : Option Nat := none
  rows_removed : Option Nat := none
  rows_modified : Option Nat := none
deriving DecidableEq, Repr

/-- `schemas/dataset.py`: one edit history entry. -/
structure EditHistoryEntry where
  timestamp : Time
  action : Str
  changes : Changes
deriving DecidableEq, Repr

/-- `schemas/dataset.py`: an extracted dataset. -/
structure Dataset where
  id : Str
  job_id : Str
  file_id : Str
  page : Nat
  bbox : Option (List ℚ) := none
  strategy_used : Str
  created_at : Time
  updated_at : Time
  columns : List Str := []
  rows : List Row := []
  raw_text : Option Str := none
  confidence : Option ℚ := none
  edit_history : List EditHistoryEntry := []
deriving DecidableEq, Repr

/-- `schemas/dataset.py`: a partial dataset update. -/
structure DatasetUpdate where
  columns : Option (List Str) := none
  rows : Option (List Row) := none
deriving DecidableEq, Repr

/-- Python set difference `list(set(a) - set(b))` as a duplicate-free
list. -/
def setDiff (a b : List Str) : List Str :=
  a.dedup.filter (fun x => decide (x ∉ b))

/-- The set `{r.get("row_id") for r in rows}` as a duplicate-free list. -/
def rowIds (rows : List Row) : List (Option Value) :=
  (rows.map (fun r => dictGet rowIdKey r)).dedup

def emptyChanges : Changes := {}

/-- The update logic of `update_dataset` (`review.py` lines 45-87), with
the already-loaded dataset and the current time passed in explicitly. -/
def apply_update (d : Dataset) (u : DatasetUpdate) (now : Time) : Dataset :=
  let s1 : Dataset × Changes :=
    match u.columns with
    | none => (d, {})
    | some newCols =>
      ({ d with columns := newCols },
       { columns_added := some (setDiff newCols d.columns),
         columns_removed := some (setDiff d.columns newCols) })
  let s2 : Dataset × Changes :=
    match u.rows with
    | none => s1
    | some newRows =>
      let oldIds := rowIds s1.1.rows
      let newIds := rowIds newRows
      ({ s1.1 with rows := newRows },
       { s1.2 with
         rows_added := some ((newIds.filter (fun x => decide (x ∉ oldIds))).length),
         rows_removed := some ((oldIds.filter (fun x => decide (x ∉ newIds))).length),
         rows_modified := some newRows.length })
  if s2.2 = emptyChanges then s2.1
  else
    { s2.1 with
      edit_history := s2.1.edit_history ++
        [{ timestamp := now, action := "update".data, changes := s2.2 }],
      updated_at := now }

/-- `run_extraction` job record (`extractor.py` lines 171-184; the
persisted dict). -/
structure Job where
  job_id : Str
  dataset_id : Str
  file_id : Str
  page : Nat
  bbox : Option (List ℚ)
  status : JobStatus
  strategy_requested : ExtractionStrategy
  strategy_used : Option ExtractionStrategy
  created_at : Time
  completed_at : Option Time
  error : Option Str
  logs : List Str
deriving DecidableEq, Repr

/-- Python `str.lower` (ASCII). -/
def lowerStr (s : Str) : Str := s.map Char.toLower

/-- Python `str.endswith`. -/
def endsWith (suffix s : Str) : Bool :=
  decide (s.reverse.take suffix.length = suffix.reverse)

def boolToStr (b : Bool) : Str := if b then "True".data else "False".data

/-- `run_extraction` (`extractor.py` lines 154-281).  The collaborators
are passed in explicitly: `hasText` is `pdf_service.page_has_text`,
`rawText` is `pdf_service.extract_page_text`, `blocksCount` is the
length of `pdf_service.extract_text_blocks`, the ids come from the uuid
generator and `now` is the clock.  Persistence (`save_job` /
`save_dataset`) stores exactly the returned values. -/
def run_extraction (file_path : Str) (file_id job_id dataset_id : Str)
    (page : Nat) (bbox : Option (List ℚ)) (strategy : ExtractionStrategy)
    (hasText : Bool) (rawText : Str) (blocksCount : Nat) (now : Time) :
    Job × Option Dataset :=
  let job0 : Job :=
    { job_id := job_id, dataset_id := dataset_id, file_id := file_id,
      page := page, bbox := bbox, status := .running,
      strategy_requested := strategy, strategy_used := none,
      created_at := now, completed_at := none, error := none,
      logs := ["Starting extraction on page ".data ++ natToStr page] }
  if !endsWith ".pdf".data (lowerStr file_path) then
    let jr := { job0 with
      status := JobStatus.needs_ocr, completed_at := some now,
      logs := job0.logs ++ ["File is an image, would need OCR".data] }
    (jr, none)
  else
    let job1 := { job0 with
      logs := job0.logs ++ ["Page has text layer: ".data ++ boolToStr hasText] }
    if strategy = .auto && !hasText then
      let jr := { job1 with
        status := JobStatus.needs_ocr, completed_at := some now,
        logs := job1.logs ++
          ["No text layer found, OCR or Vision LLM needed".data] }
      (jr, none)
    else
      let job2 := if strategy = .auto then
        { job1 with
          logs := job1.logs ++ ["Auto-selected strategy: pdf_text".data] }
        else job1
      let strat := if strategy = .auto then .pdf_text else strategy
      match strat with
      | .pdf_text =>
        if !hasText then
          let jr := { job2 with
            status := JobStatus.needs_ocr,
            error := some "PDF page has no extractable text".data,
            completed_at := some now }
          (jr, none)
        else
          let parsed := parse_table_from_text rawText
          let ds : Dataset :=
            { id := dataset_id, job_id := job_id, file_id := file_id,
              page := page, bbox := bbox, strategy_used := "pdf_text".data,
              created_at := now, updated_at := now,
              columns := parsed.1, rows := parsed.2,
              raw_text := some rawText,
              confidence := some (if 0 < parsed.2.length then 0.8 else 0.3),
              edit_history := [] }
          let jr := { job2 with
            status := JobStatus.completed,
            strategy_used := some ExtractionStrategy.pdf_text,
            completed_at := some now,
            logs := job2.logs ++
              ["Extracted ".data ++ natToStr rawText.length ++ " characters".data,
               "Found ".data ++ natToStr blocksCount ++ " text blocks".data,
               "Parsed ".data ++ natToStr parsed.2.length ++ " rows with ".data ++
                 natToStr parsed.1.length ++ " columns".data,
               "Extraction completed successfully".data] }
          (jr, some ds)
      | .ocr =>
        let jr := { job2 with
          status := JobStatus.failed,
          error := some "OCR strategy not yet implemented".data,
          completed_at := some now }
        (jr, none)
      | .vision_llm =>
        let jr := { job2 with
          status := JobStatus.failed,
          error := some "Vision LLM strategy not yet implemented".data,
          completed_at := some now }
        (jr, none)
      | .auto => (job2, none)

/-- `schemas/identification.py`: supported visual element types. -/
inductive ElementType where
  | bar_chart | grouped_bar_chart | stacked_bar_chart | line_chart
  | multi_line_chart | pie_chart | table | kpi_panel | map_data | other
deriving DecidableEq, Repr

/-- `schemas/identification.py`: pixel bounding box of a detection. -/
structure BoundingBox where
  x : Int
  y : Int
  width : Int
  height : Int
deriving DecidableEq, Repr

/-- `schemas/identification.py`: one detected visual element. -/
structure DetectedItem where
  item_id : Str
  type : ElementType
  title : Option Str := none
  description : Str
  data_preview : Str
  bbox : BoundingBox
  confidence : ℚ
  warnings : List Str := []
deriving DecidableEq, Repr

structure ImageDimensions where
  width : Int
  height : Int
deriving DecidableEq, Repr

/-- A Python `datetime`: an instant on the UTC timeline together with
its timezone-awareness.  Naive and aware datetimes can denote the same
instant, but Python refuses to order one against the other. -/
structure PyDatetime where
  seconds : Int
  aware : Bool
deriving DecidableEq, Repr

/-- `datetime.now(timezone.utc)` at timeline instant `t`: aware. -/
def nowUtc (t : Int) : PyDatetime := { seconds := t, aware := true }

/-- `datetime.utcnow()` at timeline instant `t`: naive. -/
def utcnow (t : Int) : PyDatetime := { seconds := t, aware := false }

/-- `get_identification_expiry` (`vision.py` lines 546-548):
`datetime.utcnow() + timedelta(seconds=settings.identification_ttl)`.
Adding a `timedelta` keeps the awareness of the operand, so the stored
`expires_at` is naive, and it stays naive across the JSON round trip
(no offset in the serialized ISO string). -/
def get_identification_expiry (t ttl : Int) : PyDatetime :=
  { seconds := (utcnow t).seconds + ttl, aware := (utcnow t).aware }

/-- Python `a > b` on two datetimes: raises `TypeError` when exactly
one side is timezone-aware, otherwise compares the instants. -/
def pyDatetimeGT (a b : PyDatetime) : Except Unit Bool :=
  if a.aware = b.aware then .ok (decide (b.seconds < a.seconds))
  else .error ()

/-- `schemas/identification.py`: an identification stored on disk. -/
structure StoredIdentification where
  identification_id : Str
  file_id : Str
  page : Option Nat := none
  image_dimensions : ImageDimensions
  detected_items : List DetectedItem
  image_path : Str
  status : Str
  expires_at : PyDatetime
  created_at : PyDatetime
deriving DecidableEq, Repr

/-- Outcome classification of fetching an identification: success, HTTP
404 (not found), HTTP 410 (expired), or an unhandled exception that
FastAPI surfaces as HTTP 500. -/
inductive FetchOutcome where
  | ok (s : StoredIdentification)
  | httpNotFound
  | httpExpired
  | http500
deriving DecidableEq, Repr

/-- `get_identification` (`identify.py` lines 139-155): load from the
store, report 404 when missing, then evaluate
`datetime.now(timezone.utc) > stored.expires_at`; the comparison of the
aware `now` with a naive `expires_at` raises `TypeError`, which no
handler catches on this route, so it surfaces as HTTP 500; when the
comparison succeeds it reports 410 past expiry and success otherwise.
`POST /extract/run` performs the same load-then-expiry check
(`identify.py` lines 186-198). -/
def get_identification (store : Str → Option StoredIdentification)
    (t : Int) (identification_id : Str) : FetchOutcome :=
  match store identification_id with
  | none => .httpNotFound
  | some stored =>
    match pyDatetimeGT (nowUtc t) stored.expires_at with
    | .error _ => .http500
    | .ok true => .httpExpired
    | .ok false => .ok stored

/-- `schemas/identification.py`: extraction metadata of one dataset. -/
structure ExtractionMetadata where
  source_bbox : Option BoundingBox := none
  extraction_confidence : ℚ
  notes : Option Str := none
deriving DecidableEq, Repr

/-- `schemas/identification.py`: one dataset extracted by the vision
flow. -/
structure ExtractedDataset where
  dataset_id : Str
  source_item_id : Str
  title : Str
  type : ElementType
  columns : List Str
  rows : List Row
  metadata : ExtractionMetadata
deriving DecidableEq, Repr

def sourceKey : Str := "Source".data
def categoryKey : Str := "Category".data

/-- The merged row_id strings `r1`, `r2`, ... of `_merge_datasets`. -/
def rowIdStr (n : Nat) : Str := 'r' :: natToStr n

/-- One merged row (`vision.py` lines 481-488): the dict literal
`dict(row_id=rN, Source=id, Category=title, **row-without-row_id)`. -/
def mkMergedRow (n : Nat) (ds : ExtractedDataset) (r : Row) : Row :=
  insertCells (r.filter (fun kv => decide (kv.1 ≠ rowIdKey)))
    [(rowIdKey, .vStr (rowIdStr n)),
     (sourceKey, .vStr ds.source_item_id),
     (categoryKey, .vStr ds.title)]

/-- The (dataset, row) pairs in traversal order of the nested loop of
`_merge_datasets`. -/
def mergePairs (dss : List ExtractedDataset) : List (ExtractedDataset × Row) :=
  (dss.map (fun ds => ds.rows.map (fun r => (ds, r)))).flatten

/-- `all_columns` accumulation (`vision.py` lines 491-495): append the
columns of one dataset that are not already present. -/
def unionColsAux (acc cols : List Str) : List Str :=
  cols.foldl (fun a c => if c ∈ a then a else a ++ [c]) acc

def mergeColumns (dss : List ExtractedDataset) : List Str :=
  dss.foldl (fun a ds => unionColsAux a ds.columns) [sourceKey, categoryKey]

/-- Python `",".join`. -/
def strJoin (sep : Str) (parts : List Str) : Str := List.intercalate sep parts

/-- `_merge_datasets` (`vision.py` lines 474-509).  The fresh uuid of the
merged dataset id is passed in as `uid`. -/
def mergeDatasets (uid : Str) (dss : List ExtractedDataset) : ExtractedDataset :=
  { dataset_id := "ds-".data ++ uid,
    source_item_id := strJoin ",".data (dss.map (fun ds => ds.source_item_id)),
    title := "Merged extraction".data,
    type := .other,
    columns := mergeColumns dss,
    rows := (mergePairs dss).enum.map (fun ip => mkMergedRow (ip.1 + 1) ip.2.1 ip.2.2),
    metadata :=
      { source_bbox := none,
        extraction_confidence :=
          (dss.map (fun ds => ds.metadata.extraction_confidence)).sum / dss.length,
        notes := some ("Merged from ".data ++ natToStr dss.length ++ " datasets".data) } }

/-! ## Generic lemmas about the embedded dict and list operations -/

theorem dictGet_dictInsert_eq (k : Str) (v : Value) (r : Row) :
    dictGet k (dictInsert k v r) = some v := by
  induction r with
  | nil => simp [dictInsert, dictGet]
  | cons kv rest ih =>
    obtain ⟨k', v'⟩ := kv
    by_cases h : k' = k
    · simp [dictInsert, dictGet, h]
    · simp [dictInsert, dictGet, h, ih]

theorem insertCells_nil (init : Row) : insertCells [] init = init := rfl

theorem insertCells_cons (kv : Str × Value) (cells : List (Str × Value))
    (init : Row) :
    insertCells (kv :: cells) init = insertCells cells (dictInsert kv.1 kv.2 init) := rfl

theorem dictGet_dictInsert_ne (k k' : Str) (v : Value) (r : Row)
    (h : k' ≠ k) : dictGet k (dictInsert k' v r) = dictGet k r := by
  induction r with
  | nil => simp [dictInsert, dictGet, h]
  | cons kv rest ih =>
    obtain ⟨k0, v0⟩ := kv
    simp only [dictInsert]
    by_cases h0 : k0 = k'
    · rw [if_pos h0]
      have hk0 : k0 ≠ k := h0 ▸ h
      simp [dictGet, h, hk0]
    · rw [if_neg h0]
      by_cases h1 : k0 = k
      · simp [dictGet, h1]
      · simp [dictGet, h1, ih]

theorem dictGet_insertCells_notmem (cells : List (Str × Value)) (init : Row)
    (k : Str) (h : ∀ kv ∈ cells, kv.1 ≠ k) :
    dictGet k (insertCells cells init) = dictGet k init := by
  induction cells generalizing init with
  | nil => rfl
  | cons kv rest ih =>
    have hkv : kv.1 ≠ k := h kv (by simp)
    have hrest : ∀ kv2 ∈ rest, kv2.1 ≠ k := fun kv2 hm => h kv2 (by simp [hm])
    rw [insertCells_cons, ih _ hrest, dictGet_dictInsert_ne _ _ _ _ hkv]

theorem rowKeys_dictInsert_sub (k k' : Str) (v : Value) (r : Row)
    (h : k' ∈ rowKeys (dictInsert k v r)) : k' = k ∨ k' ∈ rowKeys r := by
  induction r with
  | nil => simpa [dictInsert, rowKeys] using h
  | cons kv rest ih =>
    obtain ⟨k0, v0⟩ := kv
    simp only [dictInsert] at h
    by_cases h0 : k0 = k
    · rw [if_pos h0] at h
      simp only [rowKeys, List.map_cons, List.mem_cons] at h ⊢
      tauto
    · rw [if_neg h0] at h
      simp only [rowKeys, List.map_cons, List.mem_cons] at h ⊢
      rcases h with h | h
      · tauto
      · rcases ih h with h | h <;> tauto

theorem rowKeys_insertCells_sub (cells : List (Str × Value)) (init : Row)
    (k : Str) (h : k ∈ rowKeys (insertCells cells init)) :
    k ∈ cells.map Prod.fst ∨ k ∈ rowKeys init := by
  induction cells generalizing init with
  | nil => rw [insertCells_nil] at h; tauto
  | cons kv rest ih =>
    rw [insertCells_cons] at h
    rcases ih (dictInsert kv.1 kv.2 init) h with h2 | h2
    · simp [h2]
    · rcases rowKeys_dictInsert_sub _ _ _ _ h2 with h3 | h3
      · simp [h3]
      · simp [h3]

theorem mkCells_keys (val : Nat → Value) (j0 : Nat) (cols : List Str) :
    (mkCells val j0 cols).map Prod.fst = cols := by
  induction cols generalizing j0 with
  | nil => rfl
  | cons c cs ih => simp [mkCells, ih]

theorem dictGet_eq_none_iff (k : Str) (r : Row) :
    dictGet k r = none ↔ k ∉ rowKeys r := by
  induction r with
  | nil => simp [dictGet, rowKeys]
  | cons kv rest ih =>
    obtain ⟨k0, v0⟩ := kv
    by_cases h0 : k0 = k
    · subst h0
      simp [dictGet, rowKeys]
    · simp [dictGet, rowKeys, h0, ih, Ne.symm h0]

theorem dictGet_insertCells_isSome (cells : List (Str × Value)) (init : Row)
    (k : Str) (h : k ∈ cells.map Prod.fst) :
    (dictGet k (insertCells cells init)).isSome := by
  induction cells generalizing init with
  | nil => simp at h
  | cons kv rest ih =>
    rw [insertCells_cons]
    by_cases hr : k ∈ rest.map Prod.fst
    · exact ih (dictInsert kv.1 kv.2 init) hr
    · have hk : kv.1 = k := by
        simp only [List.map_cons, List.mem_cons] at h
        tauto
      have hpres : dictGet k (insertCells rest (dictInsert kv.1 kv.2 init)) =
          dictGet k (dictInsert kv.1 kv.2 init) := by
        apply dictGet_insertCells_notmem
        intro kv2 hm he
        exact hr (he ▸ List.mem_map_of_mem Prod.fst hm)
      rw [hpres, hk, dictGet_dictInsert_eq]
      rfl

theorem foldl_min_const (n : Nat) (cs : List Nat) (c : Nat)
    (h : ∀ x ∈ cs, x = n) (hc : c = n) : cs.foldl Nat.min c = n := by
  induction cs generalizing c with
  | nil => simpa using hc
  | cons x xs ih =>
    have hx : x = n := h x (by simp)
    refine ih _ (fun y hy => h y (by simp [hy])) ?_
    simp [hx, hc]

theorem foldl_max_const (n : Nat) (cs : List Nat) (c : Nat)
    (h : ∀ x ∈ cs, x = n) (hc : c = n) : cs.foldl Nat.max c = n := by
  induction cs generalizing c with
  | nil => simpa using hc
  | cons x xs ih =>
    have hx : x = n := h x (by simp)
    refine ih _ (fun y hy => h y (by simp [hy])) ?_
    simp [hx, hc]

theorem listMin_const (n : Nat) (cs : List Nat) (hne : cs ≠ [])
    (h : ∀ x ∈ cs, x = n) : listMin cs = n := by
  cases cs with
  | nil => exact absurd rfl hne
  | cons c cs =>
    exact foldl_min_const n cs c (fun y hy => h y (by simp [hy])) (h c (by simp))

theorem listMax_const (n : Nat) (cs : List Nat) (hne : cs ≠ [])
    (h : ∀ x ∈ cs, x = n) : listMax cs = n := by
  cases cs with
  | nil => exact absurd rfl hne
  | cons c cs =>
    exact foldl_max_const n cs c (fun y hy => h y (by simp [hy])) (h c (by simp))

/-! ## C1: strict delimiter priority, tab first -/

/-- **C1.** If every non-empty trimmed line of the input contains at
least one tab and all lines share the same tab count, then
`parse_table_from_text` commits to the tab-delimited scheme — the result
is exactly `_parse_delimited(lines, "\t")`, whose first line is the
header and whose remaining lines are the data rows — regardless of
whether any other scheme (e.g. pipe) would also accept the text. -/
theorem tab_scheme_priority (text : Str) (n : Nat) (hn : 0 < n)
    (hne : linesOf text ≠ [])
    (hcount : ∀ l ∈ linesOf text, l.count '\t' = n) :
    parse_table_from_text text = parseDelimited (linesOf text) '\t' ∧
    (parse_table_from_text text).2.length + 1 = (linesOf text).length := by
  have hcs : ∀ x ∈ (linesOf text).map (fun l => l.count '\t'), x = n := by
    intro x hx
    obtain ⟨l, hl, rfl⟩ := List.mem_map.mp hx
    exact hcount l hl
  have hcsne : (linesOf text).map (fun l => l.count '\t') ≠ [] := by
    simpa using hne
  have hmin : listMin ((linesOf text).map (fun l => l.count '\t')) = n :=
    listMin_const n _ hcsne hcs
  have hmax : listMax ((linesOf text).map (fun l => l.count '\t')) = n :=
    listMax_const n _ hcsne hcs
  have hguard : tabGuard (linesOf text) = true := by
    simp [tabGuard, hmin, hmax, hn, hcsne]
  have hempty : (linesOf text).isEmpty = false := by
    simpa [List.isEmpty_iff] using hne
  have heq : parse_table_from_text text = parseDelimited (linesOf text) '\t' := by
    simp [parse_table_from_text, hempty, hguard]
  refine ⟨heq, ?_⟩
  rw [heq]
  have hlen : (parseDelimited (linesOf text) '\t').2.length =
      (linesOf text).length - 1 := by
    simp [parseDelimited, delimSplit, List.length_tail]
  rw [hlen]
  have : 1 ≤ (linesOf text).length := by
    cases h : linesOf text with
    | nil => exact absurd h hne
    | cons a b => simp [h]
  omega

/-- **C1 witness**: a text that is simultaneously tab-consistent (one tab
per line) and pipe-consistent (two pipes per line); the tab
interpretation wins. -/
theorem tab_scheme_priority_witness :
    parse_table_from_text "a|b\tc|d\ne|f\tg|h".data =
      parseDelimited (linesOf "a|b\tc|d\ne|f\tg|h".data) '\t' ∧
    (parse_table_from_text "a|b\tc|d\ne|f\tg|h".data).2.length + 1 =
      (linesOf "a|b\tc|d\ne|f\tg|h".data).length :=
  tab_scheme_priority "a|b\tc|d\ne|f\tg|h".data 1 (by decide) (by decide)
    (by decide)

/-! ## C8: totality and empty input -/

theorem splitOnChar_chars (sep : Char) (s : Str) :
    ∀ p ∈ splitOnChar sep s, ∀ c ∈ p, c ∈ s := by
  induction s with
  | nil =>
    intro p hp c hc
    simp only [splitOnChar, List.mem_singleton] at hp
    subst hp
    simp at hc
  | cons a rest ih =>
    intro p hp c hc
    cases hr : splitOnChar sep rest with
    | nil =>
      have heq : splitOnChar sep (a :: rest) = [[a]] := by
        simp [splitOnChar, hr]
      rw [heq] at hp
      simp only [List.mem_singleton] at hp
      subst hp
      simp only [List.mem_singleton] at hc
      simp [hc]
    | cons t ts =>
      have heq : splitOnChar sep (a :: rest) =
          if a = sep then [] :: t :: ts else (a :: t) :: ts := by
        simp [splitOnChar, hr]
      rw [heq] at hp
      by_cases ha : a = sep
      · rw [if_pos ha] at hp
        simp only [List.mem_cons] at hp
        rcases hp with hp | hp | hp
        · subst hp; simp at hc
        · have := ih t (by rw [hr]; simp) c (hp ▸ hc)
          simp [this]
        · have := ih p (by rw [hr]; simp [hp]) c hc
          simp [this]
      · rw [if_neg ha] at hp
        simp only [List.mem_cons] at hp
        rcases hp with hp | hp
        · subst hp
          simp only [List.mem_cons] at hc
          rcases hc with hc | hc
          · simp [hc]
          · have := ih t (by rw [hr]; simp) c hc
            simp [this]
        · have := ih p (by rw [hr]; simp [hp]) c hc
          simp [this]

theorem trim_eq_nil_of_space (s : Str) (h : ∀ c ∈ s, pyIsSpace c = true) :
    trim s = [] := by
  have h1 : s.dropWhile pyIsSpace = [] := by
    rw [List.dropWhile_eq_nil_iff]
    exact h
  simp [trim, h1]

theorem linesOf_eq_nil_of_space (text : Str)
    (h : ∀ c ∈ text, pyIsSpace c = true) : linesOf text = [] := by
  simp only [linesOf, List.filter_eq_nil_iff]
  intro l hl
  obtain ⟨p, hp, rfl⟩ := List.mem_map.mp hl
  have : ∀ c ∈ p, pyIsSpace c = true := fun c hc =>
    h c (splitOnChar_chars '\n' text p hp c hc)
  simp [trim_eq_nil_of_space p this]

/-- **C8.** `parse_table_from_text` is a total function (it is defined by
structural recursion on the input, so it returns a `(columns, rows)`
result for every input string), and on empty or whitespace-only input it
returns empty columns and empty rows. -/
theorem parse_table_total_whitespace (text : Str)
    (h : ∀ c ∈ text, pyIsSpace c = true) :
    parse_table_from_text text = ([], []) := by
  simp [parse_table_from_text, linesOf_eq_nil_of_space text h]

/-- **C8 witness**: the empty string and a whitespace-only string both
yield `([], [])`. -/
theorem parse_table_total_whitespace_witness :
    parse_table_from_text "".data = ([], []) ∧
    parse_table_from_text "   \n \t \n  ".data = ([], []) :=
  ⟨parse_table_total_whitespace "".data (by decide),
   parse_table_total_whitespace "   \n \t \n  ".data (by decide)⟩

/-! ## C4: expired identifications and the naive/aware datetime clash -/

/-- **C4** (the claim is right and the code is wrong).  Every
identification the system itself creates stores a naive `expires_at`
(`get_identification_expiry` uses `datetime.utcnow()`), while both
fetch routes compare it against the aware `datetime.now(timezone.utc)`.
Python raises `TypeError` on that aware-vs-naive ordering, no handler
on the route catches it, and FastAPI surfaces HTTP 500: fetching a
stored identification whose `expires_at` lies in the past therefore
never yields the distinct expired (410) classification the spec — and
the repo's own `test_get_identification_expired` — require.  This
theorem evaluates the code at such inputs: for any stored
identification with a naive `expires_at` strictly in the past, the
fetch returns the unhandled-exception outcome, not expired and not
success; had the stored `expires_at` been aware, the same check would
have produced the expired classification, which is what the claim
describes. -/
theorem expired_identification_typeerror
    (store : Str → Option StoredIdentification) (t : Int)
    (identification_id : Str) (s : StoredIdentification)
    (hfound : store identification_id = some s)
    (hnaive : s.expires_at.aware = false)
    (_hpast : s.expires_at.seconds < t) :
    get_identification store t identification_id = .http500 ∧
    get_identification store t identification_id ≠ .httpExpired ∧
    (∀ s2, get_identification store t identification_id ≠ .ok s2) ∧
    (∀ s2 : StoredIdentification, s2.expires_at.aware = true →
      s2.expires_at.seconds < t →
      store identification_id = some s2 →
      get_identification store t identification_id = .httpExpired) := by
  have h : get_identification store t identification_id = .http500 := by
    simp [get_identification, hfound, pyDatetimeGT, nowUtc, hnaive]
  refine ⟨h, by simp [h], fun s2 => by simp [h], ?_⟩
  intro s2 haware hpast2 hfound2
  simp [get_identification, hfound2, pyDatetimeGT, nowUtc, haware, hpast2]

def witnessIdentification : StoredIdentification :=
  { identification_id := "ident-w".data, file_id := "file-w".data,
    page := some 1, image_dimensions := { width := 800, height := 600 },
    detected_items := [], image_path := "img.png".data,
    status := "awaiting_confirmation".data,
    expires_at := get_identification_expiry 0 3600,
    created_at := utcnow 0 }

def witnessStore : Str → Option StoredIdentification := fun i =>
  if i = "ident-w".data then some witnessIdentification else none

/-- **C4 witness**: an identification created at instant 0 through the
code's own expiry helper (naive `expires_at` at instant 3600), fetched
at instant 7200 — one hour after expiry: the fetch hits the
`TypeError` path instead of the expired classification. -/
theorem expired_identification_typeerror_witness :
    get_identification witnessStore 7200 "ident-w".data = .http500 ∧
    get_identification witnessStore 7200 "ident-w".data ≠ .httpExpired ∧
    (∀ s2, get_identification witnessStore 7200 "ident-w".data ≠ .ok s2) ∧
    (∀ s2 : StoredIdentification, s2.expires_at.aware = true →
      s2.expires_at.seconds < 7200 →
      witnessStore "ident-w".data = some s2 →
      get_identification witnessStore 7200 "ident-w".data = .httpExpired) :=
  expired_identification_typeerror witnessStore 7200 "ident-w".data
    witnessIdentification (by decide) (by decide) (by decide)

/-! ## C7: an empty partial update is a no-op -/

/-- **C7.** When the partial update carries neither columns nor rows,
`update_dataset` appends no history entry, leaves `updated_at`
unchanged, and in fact returns the dataset entirely unchanged. -/
theorem no_change_no_history (d : Dataset) (u : DatasetUpdate) (now : Time)
    (hc : u.columns = none) (hr : u.rows = none) :
    apply_update d u now = d ∧
    (apply_update d u now).edit_history = d.edit_history ∧
    (apply_update d u now).updated_at = d.updated_at := by
  have h : apply_update d u now = d := by
    simp [apply_update, hc, hr, emptyChanges]
  exact ⟨h, by rw [h], by rw [h]⟩

def witnessDataset : Dataset :=
  { id := "ds-w".data, job_id := "job-w".data, file_id := "file-w".data,
    page := 1, strategy_used := "pdf_text".data, created_at := 0,
    updated_at := 0, columns := ["A".data],
    rows := [[(rowIdKey, .vInt 1), ("A".data, .vStr "x".data)]] }

/-- **C7 witness**: the empty update applied to a concrete dataset. -/
theorem no_change_no_history_witness :
    apply_update witnessDataset {} 5 = witnessDataset ∧
    (apply_update witnessDataset {} 5).edit_history = witnessDataset.edit_history ∧
    (apply_update witnessDataset {} 5).updated_at = witnessDataset.updated_at :=
  no_change_no_history witnessDataset {} 5 rfl rfl

/-! ## C5: the recorded row diff of an update -/

theorem dedup_filter_length_eq_card_sdiff {α : Type} [DecidableEq α]
    (a b : List α) :
    ((a.dedup).filter (fun x => decide (x ∉ b))).length =
      (a.toFinset \ b.toFinset).card := by
  have hnd : ((a.dedup).filter (fun x => decide (x ∉ b))).Nodup :=
    (List.nodup_dedup a).filter _
  have hset : a.toFinset \ b.toFinset =
      ((a.dedup).filter (fun x => decide (x ∉ b))).toFinset := by
    ext x
    simp [List.mem_toFinset, List.mem_filter, List.mem_dedup,
      Finset.mem_sdiff, decide_eq_true_eq]
  rw [hset, List.toFinset_card_of_nodup hnd]

/-- **C5.** A dataset update carrying rows replaces `dataset.rows`
wholesale with the new sequence, and appends a history entry whose
`rows_added` is the cardinality of the set of new row ids minus the old
ones, `rows_removed` the cardinality of old minus new, and
`rows_modified` the total number of rows in the replacement payload. -/
theorem rows_update_diff (d : Dataset) (u : DatasetUpdate) (now : Time)
    (nr : List Row) (h : u.rows = some nr) :
    (apply_update d u now).rows = nr ∧
    ∃ e : EditHistoryEntry,
      (apply_update d u now).edit_history = d.edit_history ++ [e] ∧
      e.changes.rows_added = some
        (((nr.map (dictGet rowIdKey)).toFinset \
          (d.rows.map (dictGet rowIdKey)).toFinset).card) ∧
      e.changes.rows_removed = some
        (((d.rows.map (dictGet rowIdKey)).toFinset \
          (nr.map (dictGet rowIdKey)).toFinset).card) ∧
      e.changes.rows_modified = some nr.length := by
  have hadd : ((rowIds nr).filter
      (fun x => decide (x ∉ rowIds d.rows))).length =
      ((nr.map (dictGet rowIdKey)).toFinset \
        (d.rows.map (dictGet rowIdKey)).toFinset).card := by
    have := dedup_filter_length_eq_card_sdiff
      (nr.map (dictGet rowIdKey)) (d.rows.map (dictGet rowIdKey))
    rw [← this]
    simp only [rowIds]
    congr 1
    apply List.filter_congr
    intro x hx
    simp [List.mem_dedup]
  have hrem : ((rowIds d.rows).filter
      (fun x => decide (x ∉ rowIds nr))).length =
      ((d.rows.map (dictGet rowIdKey)).toFinset \
        (nr.map (dictGet rowIdKey)).toFinset).card := by
    have := dedup_filter_length_eq_card_sdiff
      (d.rows.map (dictGet rowIdKey)) (nr.map (dictGet rowIdKey))
    rw [← this]
    simp only [rowIds]
    congr 1
    apply List.filter_congr
    intro x hx
    simp [List.mem_dedup]
  rcases hcol : u.columns with _ | newCols
  · refine ⟨by simp [apply_update, h, hcol, emptyChanges], ?_⟩
    refine ⟨{ timestamp := now, action := "update".data, changes :=
      { rows_added := some ((rowIds nr).filter
          (fun x => decide (x ∉ rowIds d.rows))).length,
        rows_removed := some ((rowIds d.rows).filter
          (fun x => decide (x ∉ rowIds nr))).length,
        rows_modified := some nr.length } }, ?_, ?_, ?_, ?_⟩
    · simp [apply_update, h, hcol, emptyChanges]
    · simpa using hadd
    · simpa using hrem
    · simp
  · refine ⟨by simp [apply_update, h, hcol, emptyChanges], ?_⟩
    refine ⟨{ timestamp := now, action := "update".data, changes :=
      { columns_added := some (setDiff newCols d.columns),
        columns_removed := some (setDiff d.columns newCols),
        rows_added := some ((rowIds nr).filter
          (fun x => decide (x ∉ rowIds d.rows))).length,
        rows_removed := some ((rowIds d.rows).filter
          (fun x => decide (x ∉ rowIds nr))).length,
        rows_modified := some nr.length } }, ?_, ?_, ?_, ?_⟩
    · simp [apply_update, h, hcol, emptyChanges]
    · simpa using hadd
    · simpa using hrem
    · simp

/-- **C5 witness**: replacing the single row (id 1) of a concrete
dataset with rows having ids 1 and 2 records `rows_added = 1`,
`rows_removed = 0`, `rows_modified = 2`. -/
theorem rows_update_diff_witness :
    (apply_update witnessDataset
      { rows := some [[(rowIdKey, .vInt 1)], [(rowIdKey, .vInt 2)]] } 5).rows =
      [[(rowIdKey, .vInt 1)], [(rowIdKey, .vInt 2)]] ∧
    ∃ e : EditHistoryEntry,
      (apply_update witnessDataset
        { rows := some [[(rowIdKey, .vInt 1)], [(rowIdKey, .vInt 2)]] } 5).edit_history =
        witnessDataset.edit_history ++ [e] ∧
      e.changes.rows_added = some
        ((([[(rowIdKey, Value.vInt 1)], [(rowIdKey, Value.vInt 2)]].map
            (dictGet rowIdKey)).toFinset \
          (witnessDataset.rows.map (dictGet rowIdKey)).toFinset).card) ∧
      e.changes.rows_removed = some
        (((witnessDataset.rows.map (dictGet rowIdKey)).toFinset \
          ([[(rowIdKey, Value.vInt 1)], [(rowIdKey, Value.vInt 2)]].map
            (dictGet rowIdKey)).toFinset).card) ∧
      e.changes.rows_modified = some
        ([[(rowIdKey, Value.vInt 1)], [(rowIdKey, Value.vInt 2)]] : List Row).length :=
  rows_update_diff witnessDataset
    { rows := some [[(rowIdKey, .vInt 1)], [(rowIdKey, .vInt 2)]] } 5
    [[(rowIdKey, .vInt 1)], [(rowIdKey, .vInt 2)]] rfl

/-! ## C3: explicit pdf_text with no text layer fails immediately -/

/-- **C3.** When the `pdf_text` strategy is explicitly requested on a
PDF page without a usable text layer, `run_extraction` terminates the
job immediately in the terminal non-success state `needs_ocr` with the
error message recorded, does not fall back to any other strategy
(`strategy_used` stays unset), and produces no dataset. -/
theorem pdf_text_no_text_layer (file_path file_id job_id dataset_id : Str)
    (page : Nat) (bbox : Option (List ℚ)) (rawText : Str)
    (blocksCount : Nat) (now : Time)
    (hpdf : endsWith ".pdf".data (lowerStr file_path) = true) :
    (run_extraction file_path file_id job_id dataset_id page bbox
      .pdf_text false rawText blocksCount now).2 = none ∧
    (run_extraction file_path file_id job_id dataset_id page bbox
      .pdf_text false rawText blocksCount now).1.status = .needs_ocr ∧
    (run_extraction file_path file_id job_id dataset_id page bbox
      .pdf_text false rawText blocksCount now).1.status ≠ .completed ∧
    (run_extraction file_path file_id job_id dataset_id page bbox
      .pdf_text false rawText blocksCount now).1.error =
      some "PDF page has no extractable text".data ∧
    (run_extraction file_path file_id job_id dataset_id page bbox
      .pdf_text false rawText blocksCount now).1.strategy_used = none ∧
    (run_extraction file_path file_id job_id dataset_id page bbox
      .pdf_text false rawText blocksCount now).1.completed_at = some now := by
  simp [run_extraction, hpdf]

/-- **C3 witness**: a concrete PDF path with `has_text = False` and the
`pdf_text` strategy requested explicitly. -/
theorem pdf_text_no_text_layer_witness :
    (run_extraction "doc.pdf".data "f1".data "j1".data "d1".data 1 none
      .pdf_text false "".data 0 7).2 = none ∧
    (run_extraction "doc.pdf".data "f1".data "j1".data "d1".data 1 none
      .pdf_text false "".data 0 7).1.status = .needs_ocr ∧
    (run_extraction "doc.pdf".data "f1".data "j1".data "d1".data 1 none
      .pdf_text false "".data 0 7).1.status ≠ .completed ∧
    (run_extraction "doc.pdf".data "f1".data "j1".data "d1".data 1 none
      .pdf_text false "".data 0 7).1.error =
      some "PDF page has no extractable text".data ∧
    (run_extraction "doc.pdf".data "f1".data "j1".data "d1".data 1 none
      .pdf_text false "".data 0 7).1.strategy_used = none ∧
    (run_extraction "doc.pdf".data "f1".data "j1".data "d1".data 1 none
      .pdf_text false "".data 0 7).1.completed_at = some 7 :=
  pdf_text_no_text_layer "doc.pdf".data "f1".data "j1".data "d1".data 1
    none "".data 0 7 (by decide)

/-! ## C2: row counts per scheme -/

theorem parseDelimited_rows_length (lines : List Str) (delim : Char) :
    (parseDelimited lines delim).2.length = lines.length - 1 := by
  simp [parseDelimited, delimSplit, List.length_tail]

theorem msParse_rows_length (lines : List Str) :
    (msParse lines).2.length = (msData lines).length := by
  simp [msParse]

theorem kvParse_rows_length (lines : List Str) :
    (kvParse lines).2.length = (kvPairs lines).length := by
  simp [kvParse]

theorem fallbackParse_rows_length (lines : List Str) :
    (fallbackParse lines).2.length = lines.length := by
  simp [fallbackParse]

theorem kvPairs_length_eq_filter (lines : List Str) :
    (kvPairs lines).length =
      ((lines.filter (fun l => (kvMatch l).isSome))).length := by
  induction lines with
  | nil => rfl
  | cons l ls ih =>
    cases h : kvMatch l with
    | none => simp [kvPairs, List.filterMap_cons, h, List.filter_cons] at ih ⊢
              simpa [kvPairs] using ih
    | some p => simp [kvPairs, List.filterMap_cons, h, List.filter_cons] at ih ⊢
                simpa [kvPairs] using ih

theorem msData_length (lines : List Str) :
    (msData lines).length =
      if msPromote lines then lines.length - 1 else lines.length := by
  by_cases h : msPromote lines <;>
    simp [msData, h, msTokss, List.length_tail]

/-- **C2 counterexample.**  The claim states that whenever a delimited
scheme (tab, pipe, or multi-space) is chosen the row count equals the
number of non-empty input lines minus one header line.  For the input
`"1  2\n3  4"` the multi-space scheme is chosen, but its header
heuristic rejects the digit-leading first line, so no header line is
consumed: the parser returns 2 rows from 2 lines, not 1. -/
theorem row_count_claim_counterexample :
    detectScheme "1  2\n3  4".data = .mspace ∧
    (linesOf "1  2\n3  4".data).length = 2 ∧
    (parse_table_from_text "1  2\n3  4".data).2.length = 2 ∧
    ¬((parse_table_from_text "1  2\n3  4".data).2.length =
      (linesOf "1  2\n3  4".data).length - 1) := by
  refine ⟨by decide, by decide, by decide, by decide⟩

/-- **C2 (amended).**  `parse_table_from_text` always terminates (it is
a total function), and its row count is: the number of non-empty input
lines minus one header line for the tab and pipe schemes; for the
multi-space scheme, lines minus one exactly when the header heuristic
promotes the first line, and the full line count otherwise; the number
of regex-matching lines for the key-value scheme; and the full
non-empty line count for the fallback scheme. -/
theorem row_count_amended (text : Str) :
    (detectScheme text = .tab →
      (parse_table_from_text text).2.length + 1 = (linesOf text).length) ∧
    (detectScheme text = .pipe →
      (parse_table_from_text text).2.length + 1 = (linesOf text).length) ∧
    (detectScheme text = .mspace →
      (if msPromote (linesOf text) then
        (parse_table_from_text text).2.length + 1 = (linesOf text).length
      else
        (parse_table_from_text text).2.length = (linesOf text).length)) ∧
    (detectScheme text = .kv →
      (parse_table_from_text text).2.length =
        ((linesOf text).filter (fun l => (kvMatch l).isSome)).length) ∧
    (detectScheme text = .fallback →
      (parse_table_from_text text).2.length = (linesOf text).length) := by
  by_cases hE : (linesOf text).isEmpty
  · have hD : detectScheme text = .empty := by
      simp [detectScheme, hE]
    refine ⟨?_, ?_, ?_, ?_, ?_⟩ <;> (intro h; rw [hD] at h; exact absurd h (by simp))
  · have hpos : 1 ≤ (linesOf text).length := by
      have : linesOf text ≠ [] := by
        simpa [List.isEmpty_iff] using hE
      have := List.length_pos.mpr this
      omega
    by_cases hT : tabGuard (linesOf text)
    · have hD : detectScheme text = .tab := by
        simp [detectScheme, hE, hT]
      have hP : parse_table_from_text text =
          parseDelimited (linesOf text) '\t' := by
        simp [parse_table_from_text, hE, hT]
      refine ⟨?_, ?_, ?_, ?_, ?_⟩ <;> intro h <;> rw [hD] at h
      · rw [hP, parseDelimited_rows_length]; omega
      · exact absurd h (by decide)
      · exact absurd h (by decide)
      · exact absurd h (by decide)
      · exact absurd h (by decide)
    · by_cases hPi : pipeGuard (linesOf text)
      · have hD : detectScheme text = .pipe := by
          simp [detectScheme, hE, hT, hPi]
        have hP : parse_table_from_text text =
            parseDelimited (linesOf text) '|' := by
          simp [parse_table_from_text, hE, hT, hPi]
        refine ⟨?_, ?_, ?_, ?_, ?_⟩ <;> intro h <;> rw [hD] at h
        · exact absurd h (by decide)
        · rw [hP, parseDelimited_rows_length]; omega
        · exact absurd h (by decide)
        · exact absurd h (by decide)
        · exact absurd h (by decide)
      · by_cases hM : msGuard (linesOf text)
        · have hD : detectScheme text = .mspace := by
            simp [detectScheme, hE, hT, hPi, hM]
          have hP : parse_table_from_text text = msParse (linesOf text) := by
            simp [parse_table_from_text, hE, hT, hPi, hM]
          refine ⟨?_, ?_, ?_, ?_, ?_⟩ <;> intro h <;> rw [hD] at h
          · exact absurd h (by decide)
          · exact absurd h (by decide)
          · by_cases hPr : msPromote (linesOf text)
            · rw [hP, msParse_rows_length, msData_length]
              simp only [hPr, if_true]
              try omega
            · rw [hP, msParse_rows_length, msData_length]
              simp only [hPr, Bool.false_eq_true, if_false]
              try omega
          · exact absurd h (by decide)
          · exact absurd h (by decide)
        · by_cases hK : kvGuard (linesOf text)
          · have hD : detectScheme text = .kv := by
              simp [detectScheme, hE, hT, hPi, hM, hK]
            have hP : parse_table_from_text text = kvParse (linesOf text) := by
              simp [parse_table_from_text, hE, hT, hPi, hM, hK]
            refine ⟨?_, ?_, ?_, ?_, ?_⟩ <;> intro h <;> rw [hD] at h
            · exact absurd h (by decide)
            · exact absurd h (by decide)
            · exact absurd h (by decide)
            · rw [hP, kvParse_rows_length, kvPairs_length_eq_filter]
            · exact absurd h (by decide)
          · have hD : detectScheme text = .fallback := by
              simp [detectScheme, hE, hT, hPi, hM, hK]
            have hP : parse_table_from_text text =
                fallbackParse (linesOf text) := by
              simp [parse_table_from_text, hE, hT, hPi, hM, hK]
            refine ⟨?_, ?_, ?_, ?_, ?_⟩ <;> intro h <;> rw [hD] at h
            · exact absurd h (by decide)
            · exact absurd h (by decide)
            · exact absurd h (by decide)
            · exact absurd h (by decide)
            · rw [hP, fallbackParse_rows_length]

/-- **C2 (amended) witness**: the tab branch instantiated on the
concrete tab table with two data lines. -/
theorem row_count_amended_witness :
    (parse_table_from_text "Name\tAge\nAlice\t30\nBob\t25".data).2.length + 1 =
      (linesOf "Name\tAge\nAlice\t30\nBob\t25".data).length :=
  (row_count_amended "Name\tAge\nAlice\t30\nBob\t25".data).1 (by decide)

/-! ## C9: ragged-row repair in the multi-space scheme -/

theorem mem_iff_getD (cs : List Str) (x : Str) :
    x ∈ cs ↔ ∃ i, i < cs.length ∧ cs.getD i [] = x := by
  induction cs with
  | nil => simp
  | cons c cs ih =>
    constructor
    · intro h
      rcases List.mem_cons.mp h with h | h
      · exact ⟨0, by simp, by simp [h.symm]⟩
      · obtain ⟨i, hi, hx⟩ := ih.mp h
        exact ⟨i + 1, by simpa using hi, by simpa [List.getD_cons_succ] using hx⟩
    · rintro ⟨i, hi, hx⟩
      cases i with
      | zero => simp at hx; simp [hx]
      | succ i2 =>
        rw [List.getD_cons_succ] at hx
        have : i2 < cs.length := by simpa using hi
        exact List.mem_cons_of_mem c (ih.mpr ⟨i2, this, hx⟩)

theorem insertCells_mkCells_getD_last (val : Nat → Value) (cols : List Str)
    (init : Row) (j0 j : Nat) (hj : j < cols.length)
    (hlast : ∀ j2, j < j2 → j2 < cols.length →
      cols.getD j2 [] ≠ cols.getD j []) :
    dictGet (cols.getD j []) (insertCells (mkCells val j0 cols) init) =
      some (val (j0 + j)) := by
  induction cols generalizing init j0 j with
  | nil => simp at hj
  | cons c cs ih =>
    cases j with
    | zero =>
      simp only [List.getD_cons_zero]
      have hnotin : ∀ kv ∈ mkCells val (j0 + 1) cs, kv.1 ≠ c := by
        intro kv hkv he
        have hkeys : kv.1 ∈ cs := by
          have := List.mem_map_of_mem Prod.fst hkv
          rwa [mkCells_keys] at this
        obtain ⟨i, hi, hx⟩ := (mem_iff_getD cs kv.1).mp hkeys
        have := hlast (i + 1) (by omega) (by simpa using hi)
        rw [List.getD_cons_succ, List.getD_cons_zero, hx] at this
        exact this (he ▸ rfl)
      rw [show mkCells val j0 (c :: cs) =
        (c, val j0) :: mkCells val (j0 + 1) cs from rfl]
      rw [insertCells_cons]
      rw [dictGet_insertCells_notmem _ _ _ hnotin]
      simpa using dictGet_dictInsert_eq c (val j0) init
    | succ j2 =>
      have hj2 : j2 < cs.length := by simpa using hj
      have hlast2 : ∀ j3, j2 < j3 → j3 < cs.length →
          cs.getD j3 [] ≠ cs.getD j2 [] := by
        intro j3 h3 h3l
        have := hlast (j3 + 1) (by omega) (by simpa using h3l)
        rwa [List.getD_cons_succ, List.getD_cons_succ] at this
      rw [List.getD_cons_succ]
      rw [show mkCells val j0 (c :: cs) =
        (c, val j0) :: mkCells val (j0 + 1) cs from rfl]
      rw [insertCells_cons]
      rw [ih (dictInsert c (val j0) init) (j0 + 1) j2 hj2 hlast2]
      rw [show j0 + 1 + j2 = j0 + (j2 + 1) from by omega]

theorem enumFrom_map_getD {α β : Type} (f : Nat × α → β) (l : List α)
    (n i : Nat) (hi : i < l.length) (d : α) (db : β) :
    ((List.enumFrom n l).map f).getD i db = f (n + i, l.getD i d) := by
  induction l generalizing n i with
  | nil => simp at hi
  | cons a as ih =>
    cases i with
    | zero => simp [List.enumFrom]
    | succ i2 =>
      have hi2 : i2 < as.length := by simpa using hi
      simp only [List.enumFrom, List.map_cons, List.getD_cons_succ]
      rw [ih (n + 1) i2 hi2]
      congr 2
      omega

theorem enum_map_getD {α β : Type} (f : Nat × α → β) (l : List α)
    (i : Nat) (hi : i < l.length) (d : α) (db : β) :
    ((l.enum).map f).getD i db = f (i, l.getD i d) := by
  have := enumFrom_map_getD f l 0 i hi d db
  simpa [List.enum] using this

/-- **C9.** When the multi-space scheme is the one chosen (the tab and
pipe guards fail and the multi-space guard holds), every data line
yields a row (none is dropped), every row carries a binding for every
column, and a data line with fewer tokens than the column count has its
missing trailing cells padded with the empty string: at every column
position `j` at or beyond the line's token count (taking the last
occurrence of that column name, which is what the positional dict
assignment leaves in place), the row's value is `""`. -/
theorem ms_ragged_row_padding (text : Str)
    (hE : (linesOf text).isEmpty = false)
    (hT : tabGuard (linesOf text) = false)
    (hPi : pipeGuard (linesOf text) = false)
    (hM : msGuard (linesOf text) = true)
    (i j : Nat)
    (hi : i < (msData (linesOf text)).length)
    (hj : j < (msColumns (linesOf text)).length)
    (hshort : ((msData (linesOf text)).getD i []).length ≤ j)
    (hlast : ∀ j2, j < j2 → j2 < (msColumns (linesOf text)).length →
      (msColumns (linesOf text)).getD j2 [] ≠ (msColumns (linesOf text)).getD j []) :
    (parse_table_from_text text).2.length = (msData (linesOf text)).length ∧
    (∀ c ∈ msColumns (linesOf text),
      (dictGet c ((parse_table_from_text text).2.getD i [])).isSome) ∧
    dictGet ((msColumns (linesOf text)).getD j [])
      ((parse_table_from_text text).2.getD i []) = some (.vStr []) := by
  have hP : parse_table_from_text text = msParse (linesOf text) := by
    simp [parse_table_from_text, hE, hT, hPi, hM]
  rw [hP]
  have hrow : (msParse (linesOf text)).2.getD i [] =
      mkRowMS (i + 1) (msColumns (linesOf text))
        ((msData (linesOf text)).getD i []) := by
    simp only [msParse]
    exact enum_map_getD _ _ i hi [] []
  refine ⟨by simp [msParse], ?_, ?_⟩
  · intro c hc
    rw [hrow]
    apply dictGet_insertCells_isSome
    rw [mkCells_keys]
    exact hc
  · rw [hrow]
    rw [show mkRowMS (i + 1) (msColumns (linesOf text))
        ((msData (linesOf text)).getD i []) =
      insertCells (mkCells (msValue ((msData (linesOf text)).getD i [])) 0
        (msColumns (linesOf text))) [(rowIdKey, .vInt (i + 1))] from rfl]
    rw [insertCells_mkCells_getD_last _ _ _ 0 j hj hlast]
    simp only [Nat.zero_add, msValue]
    rw [if_neg (by omega)]

/-- **C9 witness**: a three-column header with a two-token data line;
the missing `City` cell is padded with the empty string. -/
theorem ms_ragged_row_padding_witness :
    (parse_table_from_text "Name  Age  City\nAlice  30".data).2.length =
      (msData (linesOf "Name  Age  City\nAlice  30".data)).length ∧
    (∀ c ∈ msColumns (linesOf "Name  Age  City\nAlice  30".data),
      (dictGet c ((parse_table_from_text "Name  Age  City\nAlice  30".data).2.getD
        0 [])).isSome) ∧
    dictGet ((msColumns (linesOf "Name  Age  City\nAlice  30".data)).getD 2 [])
      ((parse_table_from_text "Name  Age  City\nAlice  30".data).2.getD 0 []) =
      some (.vStr []) :=
  ms_ragged_row_padding "Name  Age  City\nAlice  30".data (by decide)
    (by decide) (by decide) (by decide) 0 2 (by decide) (by decide)
    (by decide)
    (by
      intro j2 h2 hlen
      exfalso
      have hc : (msColumns (linesOf "Name  Age  City\nAlice  30".data)).length = 3 :=
        by decide
      omega)

/-! ## C10: the row-key invariant -/

/-- The §3 invariant for one row: every key is `row_id` or a declared
column. -/
def RowKeysOK (cols : List Str) (r : Row) : Prop :=
  ∀ k ∈ rowKeys r, k = rowIdKey ∨ k ∈ cols

instance (cols : List Str) (r : Row) : Decidable (RowKeysOK cols r) := by
  unfold RowKeysOK
  infer_instance

theorem rowKeys_mkRow_sub (val : Nat → Value) (j0 : Nat) (cols : List Str)
    (i : Int) (k : Str)
    (h : k ∈ rowKeys (insertCells (mkCells val j0 cols) [(rowIdKey, .vInt i)])) :
    k = rowIdKey ∨ k ∈ cols := by
  rcases rowKeys_insertCells_sub _ _ _ h with h2 | h2
  · rw [mkCells_keys] at h2
    exact Or.inr h2
  · left
    simpa [rowKeys] using h2

theorem parseDelimited_rows_keys (lines : List Str) (delim : Char) :
    ∀ r ∈ (parseDelimited lines delim).2,
      RowKeysOK (parseDelimited lines delim).1 r := by
  intro r hr
  simp only [parseDelimited] at hr ⊢
  obtain ⟨ip, hip, rfl⟩ := List.mem_map.mp hr
  intro k hk
  exact rowKeys_mkRow_sub _ _ _ _ _ hk

theorem msParse_rows_keys (lines : List Str) :
    ∀ r ∈ (msParse lines).2, RowKeysOK (msParse lines).1 r := by
  intro r hr
  simp only [msParse] at hr ⊢
  obtain ⟨ip, hip, rfl⟩ := List.mem_map.mp hr
  intro k hk
  exact rowKeys_mkRow_sub _ _ _ _ _ hk

theorem kvParse_rows_keys (lines : List Str) :
    ∀ r ∈ (kvParse lines).2, RowKeysOK (kvParse lines).1 r := by
  intro r hr
  simp only [kvParse] at hr ⊢
  obtain ⟨ip, hip, rfl⟩ := List.mem_map.mp hr
  intro k hk
  simp only [rowKeys, List.map_cons, List.map_nil, List.mem_cons,
    List.mem_singleton] at hk
  rcases hk with h | h | h
  · exact Or.inl h
  · exact Or.inr (by simp [h])
  · rcases h with h | h
    · exact Or.inr (by simp [h])
    · simp at h

theorem fallbackParse_rows_keys (lines : List Str) :
    ∀ r ∈ (fallbackParse lines).2, RowKeysOK (fallbackParse lines).1 r := by
  intro r hr
  simp only [fallbackParse] at hr ⊢
  obtain ⟨il, hil, rfl⟩ := List.mem_map.mp hr
  intro k hk
  simp only [rowKeys, List.map_cons, List.map_nil, List.mem_cons,
    List.mem_singleton] at hk
  rcases hk with h | h | h
  · exact Or.inl h
  · exact Or.inr (by simp [h])
  · simp at h

theorem parse_table_rows_keys (text : Str) :
    ∀ r ∈ (parse_table_from_text text).2,
      RowKeysOK (parse_table_from_text text).1 r := by
  by_cases hE : (linesOf text).isEmpty
  · simp [parse_table_from_text, hE]
  · by_cases hT : tabGuard (linesOf text)
    · have hP : parse_table_from_text text =
          parseDelimited (linesOf text) '\t' := by
        simp [parse_table_from_text, hE, hT]
      rw [hP]
      exact parseDelimited_rows_keys _ _
    · by_cases hPi : pipeGuard (linesOf text)
      · have hP : parse_table_from_text text =
            parseDelimited (linesOf text) '|' := by
          simp [parse_table_from_text, hE, hT, hPi]
        rw [hP]
        exact parseDelimited_rows_keys _ _
      · by_cases hM : msGuard (linesOf text)
        · have hP : parse_table_from_text text = msParse (linesOf text) := by
            simp [parse_table_from_text, hE, hT, hPi, hM]
          rw [hP]
          exact msParse_rows_keys _
        · by_cases hK : kvGuard (linesOf text)
          · have hP : parse_table_from_text text = kvParse (linesOf text) := by
              simp [parse_table_from_text, hE, hT, hPi, hM, hK]
            rw [hP]
            exact kvParse_rows_keys _
          · have hP : parse_table_from_text text =
                fallbackParse (linesOf text) := by
              simp [parse_table_from_text, hE, hT, hPi, hM, hK]
            rw [hP]
            exact fallbackParse_rows_keys _

theorem run_extraction_rows_keys (file_path file_id job_id dataset_id : Str)
    (page : Nat) (bbox : Option (List ℚ)) (strategy : ExtractionStrategy)
    (hasText : Bool) (rawText : Str) (blocksCount : Nat) (now : Time)
    (ds : Dataset)
    (h : (run_extraction file_path file_id job_id dataset_id page bbox
      strategy hasText rawText blocksCount now).2 = some ds) :
    ∀ r ∈ ds.rows, RowKeysOK ds.columns r := by
  by_cases h1 : endsWith ".pdf".data (lowerStr file_path)
  · cases strategy <;> cases hasText <;>
      simp only [run_extraction, h1, Bool.not_true, Bool.false_eq_true,
        if_false, if_true, Bool.and_self, Bool.and_false, Bool.and_true,
        Bool.not_false, reduceCtorEq, reduceIte] at h <;>
      first
      | (rw [Option.some_inj] at h
         subst h
         exact parse_table_rows_keys rawText)
      | exact absurd h (by simp)
  · simp only [run_extraction, h1, Bool.not_false, if_true, reduceIte] at h
    exact absurd h (by simp)

theorem apply_update_columns_eq (d : Dataset) (u : DatasetUpdate) (now : Time) :
    (apply_update d u now).columns = u.columns.getD d.columns := by
  rcases hc : u.columns with _ | nc <;> rcases hr : u.rows with _ | nr <;>
    simp [apply_update, hc, hr, emptyChanges]

theorem apply_update_rows_eq (d : Dataset) (u : DatasetUpdate) (now : Time) :
    (apply_update d u now).rows = u.rows.getD d.rows := by
  rcases hc : u.columns with _ | nc <;> rcases hr : u.rows with _ | nr <;>
    simp [apply_update, hc, hr, emptyChanges]

def badUpdate : DatasetUpdate :=
  { rows := some [[(rowIdKey, .vInt 1), ("B".data, .vStr "y".data)]] }

/-- **C10 counterexample.**  The claim states that the invariant "every
row's keys are a subset of `columns` plus `row_id`" is preserved by every
dataset update.  It is not: `update_dataset` performs no validation of
the replacement rows against the columns, so an update whose rows carry
a key (`"B"`) outside the dataset's columns (`["A"]`) produces a dataset
violating the invariant, even though the input dataset satisfied it. -/
theorem update_breaks_row_key_invariant :
    (∀ r ∈ witnessDataset.rows, RowKeysOK witnessDataset.columns r) ∧
    ¬(∀ r ∈ (apply_update witnessDataset badUpdate 5).rows,
        RowKeysOK (apply_update witnessDataset badUpdate 5).columns r) := by
  refine ⟨by decide, by decide⟩

/-- **C10 (amended).**  The row-key invariant holds for every dataset
produced by `parse_table_from_text` and by `run_extraction`; and
`apply_update` preserves it exactly when the effective new rows respect
the effective new columns (in particular it is not preserved by
arbitrary updates, see the counterexample): if every row of
`u.rows.getD d.rows` has its keys inside `u.columns.getD d.columns`
plus `row_id`, then the updated dataset satisfies the invariant. -/
theorem row_key_invariant_amended :
    (∀ text : Str, ∀ r ∈ (parse_table_from_text text).2,
      RowKeysOK (parse_table_from_text text).1 r) ∧
    (∀ (file_path file_id job_id dataset_id : Str) (page : Nat)
      (bbox : Option (List ℚ)) (strategy : ExtractionStrategy)
      (hasText : Bool) (rawText : Str) (blocksCount : Nat) (now : Time)
      (ds : Dataset),
      (run_extraction file_path file_id job_id dataset_id page bbox
        strategy hasText rawText blocksCount now).2 = some ds →
      ∀ r ∈ ds.rows, RowKeysOK ds.columns r) ∧
    (∀ (d : Dataset) (u : DatasetUpdate) (now : Time),
      (∀ r ∈ u.rows.getD d.rows, RowKeysOK (u.columns.getD d.columns) r) →
      ∀ r ∈ (apply_update d u now).rows,
        RowKeysOK (apply_update d u now).columns r) := by
  refine ⟨parse_table_rows_keys, run_extraction_rows_keys, ?_⟩
  intro d u now hok r hr
  rw [apply_update_rows_eq] at hr
  rw [apply_update_columns_eq]
  exact hok r hr

/-- **C10 (amended) witness**: the update-preservation conjunct applied
to a concrete dataset and a row payload that respects the columns. -/
theorem row_key_invariant_amended_witness :
    ∀ r ∈ (apply_update witnessDataset
      { rows := some [[(rowIdKey, .vInt 2), ("A".data, .vStr "z".data)]] } 5).rows,
      RowKeysOK (apply_update witnessDataset
        { rows := some [[(rowIdKey, .vInt 2), ("A".data, .vStr "z".data)]] } 5).columns r :=
  row_key_invariant_amended.2.2 witnessDataset
    { rows := some [[(rowIdKey, .vInt 2), ("A".data, .vStr "z".data)]] } 5
    (by decide)

/-! ## C6: merging vision-extracted datasets -/

theorem unionColsAux_cons (acc : List Str) (c : Str) (cs : List Str) :
    unionColsAux acc (c :: cs) =
      unionColsAux (if c ∈ acc then acc else acc ++ [c]) cs := rfl

theorem mem_unionColsAux (acc cols : List Str) (x : Str) :
    x ∈ unionColsAux acc cols ↔ x ∈ acc ∨ x ∈ cols := by
  induction cols generalizing acc with
  | nil => simp [unionColsAux]
  | cons c cs ih =>
    rw [unionColsAux_cons, ih]
    by_cases hc : c ∈ acc
    · rw [if_pos hc]
      constructor
      · intro h
        rcases h with h | h
        · exact Or.inl h
        · exact Or.inr (List.mem_cons_of_mem c h)
      · intro h
        rcases h with h | h
        · exact Or.inl h
        · rcases List.mem_cons.mp h with h | h
          · exact Or.inl (h ▸ hc)
          · exact Or.inr h
    · rw [if_neg hc]
      simp only [List.mem_append, List.mem_singleton, List.mem_cons]
      tauto

theorem nodup_unionColsAux (acc cols : List Str) (h : acc.Nodup) :
    (unionColsAux acc cols).Nodup := by
  induction cols generalizing acc with
  | nil => exact h
  | cons c cs ih =>
    rw [unionColsAux_cons]
    by_cases hc : c ∈ acc
    · rw [if_pos hc]; exact ih acc h
    · rw [if_neg hc]
      refine ih _ ?_
      simp [List.nodup_append, h, hc]

theorem unionColsAux_eq_append (acc cols : List Str) :
    ∃ rest, unionColsAux acc cols = acc ++ rest := by
  induction cols generalizing acc with
  | nil => exact ⟨[], by simp [unionColsAux]⟩
  | cons c cs ih =>
    rw [unionColsAux_cons]
    by_cases hc : c ∈ acc
    · rw [if_pos hc]; exact ih acc
    · rw [if_neg hc]
      obtain ⟨rest, hrest⟩ := ih (acc ++ [c])
      exact ⟨[c] ++ rest, by simp [hrest]⟩

theorem mem_colsFold (dss : List ExtractedDataset) (acc : List Str) (x : Str) :
    x ∈ dss.foldl (fun a ds => unionColsAux a ds.columns) acc ↔
      x ∈ acc ∨ ∃ ds ∈ dss, x ∈ ds.columns := by
  induction dss generalizing acc with
  | nil => simp
  | cons d ds ih =>
    rw [List.foldl_cons, ih, mem_unionColsAux]
    constructor
    · rintro ((h | h) | ⟨e, he, hx⟩)
      · exact Or.inl h
      · exact Or.inr ⟨d, by simp, h⟩
      · exact Or.inr ⟨e, by simp [he], hx⟩
    · rintro (h | ⟨e, he, hx⟩)
      · exact Or.inl (Or.inl h)
      · rcases List.mem_cons.mp he with he | he
        · exact Or.inl (Or.inr (he ▸ hx))
        · exact Or.inr ⟨e, he, hx⟩

theorem nodup_colsFold (dss : List ExtractedDataset) (acc : List Str)
    (h : acc.Nodup) :
    (dss.foldl (fun a ds => unionColsAux a ds.columns) acc).Nodup := by
  induction dss generalizing acc with
  | nil => exact h
  | cons d ds ih => exact ih _ (nodup_unionColsAux _ _ h)

theorem colsFold_eq_append (dss : List ExtractedDataset) (acc : List Str) :
    ∃ rest, dss.foldl (fun a ds => unionColsAux a ds.columns) acc =
      acc ++ rest := by
  induction dss generalizing acc with
  | nil => exact ⟨[], by simp⟩
  | cons d ds ih =>
    rw [List.foldl_cons]
    obtain ⟨r1, hr1⟩ := unionColsAux_eq_append acc d.columns
    obtain ⟨r2, hr2⟩ := ih (unionColsAux acc d.columns)
    exact ⟨r1 ++ r2, by rw [hr2, hr1, List.append_assoc]⟩

theorem mergePairs_mem (dss : List ExtractedDataset)
    (p : ExtractedDataset × Row) (h : p ∈ mergePairs dss) :
    p.1 ∈ dss ∧ p.2 ∈ p.1.rows := by
  simp only [mergePairs, List.mem_flatten] at h
  obtain ⟨sub, hsub, hp⟩ := h
  obtain ⟨ds, hds, rfl⟩ := List.mem_map.mp hsub
  obtain ⟨r, hr, rfl⟩ := List.mem_map.mp hp
  exact ⟨hds, hr⟩

theorem getD_mem_of_lt {α : Type} (l : List α) (i : Nat) (d : α)
    (h : i < l.length) : l.getD i d ∈ l := by
  induction l generalizing i with
  | nil => simp at h
  | cons a as ih =>
    cases i with
    | zero => simp
    | succ i2 =>
      rw [List.getD_cons_succ]
      exact List.mem_cons_of_mem a (ih i2 (by simpa using h))

/-- Default element used only as the `getD` fallback below. -/
def dfltEDS : ExtractedDataset :=
  { dataset_id := [], source_item_id := [], title := [], type := .other,
    columns := [], rows := [], metadata := { extraction_confidence := 0 } }

def spoofDS1 : ExtractedDataset :=
  { dataset_id := "a".data, source_item_id := "item-1".data,
    title := "T1".data, type := .other, columns := ["X".data],
    rows := [[(rowIdKey, .vStr "r1".data), ("X".data, .vInt 1)]],
    metadata := { extraction_confidence := 1 } }

def spoofDS2 : ExtractedDataset :=
  { dataset_id := "b".data, source_item_id := "item-2".data,
    title := "T2".data, type := .other, columns := [sourceKey],
    rows := [[(rowIdKey, .vStr "r1".data), (sourceKey, .vStr "spoof".data)]],
    metadata := { extraction_confidence := 1 } }

/-- **C6 counterexample.**  The claim states that in a merged dataset
every output row has `Source` set to the originating element id.  But
the merged-row dict literal spreads the input row's own entries last, so
an input row that itself carries a `Source` key overwrites the synthetic
value: merging a dataset whose rows have a `Source` column yields a row
whose `Source` is the row's own value (`"spoof"`), not the originating
element id (`"item-2"`). -/
theorem merge_source_overwrite_counterexample :
    dictGet sourceKey
      ((mergeDatasets "u".data [spoofDS1, spoofDS2]).rows.getD 1 []) =
      some (.vStr "spoof".data) ∧
    ¬(dictGet sourceKey
        ((mergeDatasets "u".data [spoofDS1, spoofDS2]).rows.getD 1 []) =
      some (.vStr spoofDS2.source_item_id)) := by
  refine ⟨by decide, by decide⟩

/-- **C6 (amended).**  For a merge of a non-empty list of extracted
datasets none of whose rows carries its own `Source` or `Category` key
(the code lets such a key overwrite the synthetic one, see the
counterexample), the merged dataset has: columns starting with the two
synthetic columns `Source`, `Category` followed by the remaining
distinct input column names (no duplicates; a name belongs to the
merged columns iff it is one of the two synthetic names or appears in
some input); one output row per input row, in order, whose `Source` is
the originating element id, whose `Category` is the originating element
title, and whose row id is the synthetic `r(i+1)`; and an overall
confidence equal to the arithmetic mean of the per-element
confidences. -/
theorem merge_datasets_amended (uid : Str) (dss : List ExtractedDataset)
    (_hlen : 1 < dss.length)
    (hclean : ∀ ds ∈ dss, ∀ r ∈ ds.rows,
      dictGet sourceKey r = none ∧ dictGet categoryKey r = none) :
    (∃ rest, (mergeDatasets uid dss).columns =
      sourceKey :: categoryKey :: rest) ∧
    (mergeDatasets uid dss).columns.Nodup ∧
    (∀ c, c ∈ (mergeDatasets uid dss).columns ↔
      (c = sourceKey ∨ c = categoryKey ∨ ∃ ds ∈ dss, c ∈ ds.columns)) ∧
    (mergeDatasets uid dss).rows.length =
      (dss.map (fun ds => ds.rows.length)).sum ∧
    (∀ i, i < (mergePairs dss).length →
      dictGet sourceKey ((mergeDatasets uid dss).rows.getD i []) =
        some (.vStr ((mergePairs dss).getD i (dfltEDS, [])).1.source_item_id) ∧
      dictGet categoryKey ((mergeDatasets uid dss).rows.getD i []) =
        some (.vStr ((mergePairs dss).getD i (dfltEDS, [])).1.title) ∧
      dictGet rowIdKey ((mergeDatasets uid dss).rows.getD i []) =
        some (.vStr (rowIdStr (i + 1)))) ∧
    (mergeDatasets uid dss).metadata.extraction_confidence =
      (dss.map (fun ds => ds.metadata.extraction_confidence)).sum /
        dss.length := by
  have hsc : sourceKey ≠ categoryKey := by decide
  have hrs : rowIdKey ≠ sourceKey := by decide
  have hrc : rowIdKey ≠ categoryKey := by decide
  refine ⟨?_, ?_, ?_, ?_, ?_, ?_⟩
  · obtain ⟨rest, hrest⟩ := colsFold_eq_append dss [sourceKey, categoryKey]
    exact ⟨rest, by simpa [mergeDatasets, mergeColumns] using hrest⟩
  · have : ([sourceKey, categoryKey] : List Str).Nodup := by
      simp [hsc]
    simpa [mergeDatasets, mergeColumns] using nodup_colsFold dss _ this
  · intro c
    have := mem_colsFold dss [sourceKey, categoryKey] c
    simp only [mergeDatasets, mergeColumns]
    rw [this]
    simp only [List.mem_cons, List.mem_singleton, List.not_mem_nil, or_false]
    tauto
  · simp only [mergeDatasets, List.length_map, List.enum_length]
    simp only [mergePairs, List.length_flatten, List.map_map]
    congr 1
    apply List.map_congr_left
    intro ds hds
    simp
  · intro i hi
    have hrow : (mergeDatasets uid dss).rows.getD i [] =
        mkMergedRow (i + 1) ((mergePairs dss).getD i (dfltEDS, [])).1
          ((mergePairs dss).getD i (dfltEDS, [])).2 := by
      simp only [mergeDatasets]
      exact enum_map_getD _ _ i hi (dfltEDS, []) []
    have hmem : (mergePairs dss).getD i (dfltEDS, []) ∈ mergePairs dss :=
      getD_mem_of_lt _ i _ hi
    obtain ⟨hds, hr⟩ := mergePairs_mem dss _ hmem
    obtain ⟨hnoS, hnoC⟩ := hclean _ hds _ hr
    have hcells : ∀ kv ∈ (((mergePairs dss).getD i (dfltEDS, [])).2.filter
        (fun kv => decide (kv.1 ≠ rowIdKey))), kv.1 ∈
        rowKeys ((mergePairs dss).getD i (dfltEDS, [])).2 := by
      intro kv hkv
      exact List.mem_map_of_mem Prod.fst (List.mem_of_mem_filter hkv)
    have hnoS2 : sourceKey ∉ rowKeys ((mergePairs dss).getD i (dfltEDS, [])).2 :=
      (dictGet_eq_none_iff _ _).mp hnoS
    have hnoC2 : categoryKey ∉ rowKeys ((mergePairs dss).getD i (dfltEDS, [])).2 :=
      (dictGet_eq_none_iff _ _).mp hnoC
    rw [hrow]
    simp only [mkMergedRow]
    refine ⟨?_, ?_, ?_⟩
    · rw [dictGet_insertCells_notmem]
      · simp [dictGet, hrs, hsc.symm]
      · intro kv hkv he
        exact hnoS2 (he ▸ hcells kv hkv)
    · rw [dictGet_insertCells_notmem]
      · simp [dictGet, hrc, hsc]
      · intro kv hkv he
        exact hnoC2 (he ▸ hcells kv hkv)
    · rw [dictGet_insertCells_notmem]
      · simp [dictGet]
      · intro kv hkv he
        have := List.mem_filter.mp hkv
        have hne2 : kv.1 ≠ rowIdKey := by
          simpa using this.2
        exact hne2 he
  · simp [mergeDatasets]

def sceneDS1 : ExtractedDataset :=
  { dataset_id := "a".data, source_item_id := "item-1".data,
    title := "T1".data, type := .bar_chart, columns := ["X".data],
    rows := [[(rowIdKey, .vStr "r1".data), ("X".data, .vInt 1)]],
    metadata := { extraction_confidence := 0.9 } }

def sceneDS2 : ExtractedDataset :=
  { dataset_id := "b".data, source_item_id := "item-2".data,
    title := "T2".data, type := .pie_chart, columns := ["Y".data],
    rows := [[(rowIdKey, .vStr "r1".data), ("Y".data, .vInt 2)]],
    metadata := { extraction_confidence := 0.7 } }

/-- **C6 (amended) witness**: the merge of the spec's concrete
scenario 6 — two single-row datasets with disjoint columns `X` and `Y`
and confidences 0.9 and 0.7. -/
theorem merge_datasets_amended_witness :
    (∃ rest, (mergeDatasets "u".data [sceneDS1, sceneDS2]).columns =
      sourceKey :: categoryKey :: rest) ∧
    (mergeDatasets "u".data [sceneDS1, sceneDS2]).columns.Nodup ∧
    (∀ c, c ∈ (mergeDatasets "u".data [sceneDS1, sceneDS2]).columns ↔
      (c = sourceKey ∨ c = categoryKey ∨
        ∃ ds ∈ [sceneDS1, sceneDS2], c ∈ ds.columns)) ∧
    (mergeDatasets "u".data [sceneDS1, sceneDS2]).rows.length =
      ([sceneDS1, sceneDS2].map (fun ds => ds.rows.length)).sum ∧
    (∀ i, i < (mergePairs [sceneDS1, sceneDS2]).length →
      dictGet sourceKey
        ((mergeDatasets "u".data [sceneDS1, sceneDS2]).rows.getD i []) =
        some (.vStr ((mergePairs [sceneDS1, sceneDS2]).getD i
          (dfltEDS, [])).1.source_item_id) ∧
      dictGet categoryKey
        ((mergeDatasets "u".data [sceneDS1, sceneDS2]).rows.getD i []) =
        some (.vStr ((mergePairs [sceneDS1, sceneDS2]).getD i
          (dfltEDS, [])).1.title) ∧
      dictGet rowIdKey
        ((mergeDatasets "u".data [sceneDS1, sceneDS2]).rows.getD i []) =
        some (.vStr (rowIdStr (i + 1)))) ∧
    (mergeDatasets "u".data [sceneDS1, sceneDS2]).metadata.extraction_confidence =
      ([sceneDS1, sceneDS2].map
        (fun ds => ds.metadata.extraction_confidence)).sum /
        ([sceneDS1, sceneDS2] : List ExtractedDataset).length :=
  merge_datasets_amended "u".data [sceneDS1, sceneDS2] (by decide)
    (by decide)

end Infograph
